import Mathlib

/-!
Verification of the agent-pipeline state machine and its persisted-store
contract, as a shallow embedding of the TypeScript sources
(`src/pipeline/AgentConfig.ts`, `src/pipeline/PipelineManager.ts`,
`src/utils/storage.ts`, `src/mcp/server.ts`).

Pure functions of the source become Lean functions; the stateful
`PipelineManager` class becomes explicit state passing over
`PipelineState × Disk`; timestamps (`new Date().toISOString()`) become an
explicit `now : String` argument; thrown exceptions become `Except`.
-/

namespace AgentPipeline

/-- Embedding of the `PipelinePhase` string-union type of `AgentConfig.ts`. -/
inductive PipelinePhase
  | idle
  | planning
  | plan_review
  | implementing
  | impl_review
  | reviewing
  | review_done
  | testing
  | completed
deriving DecidableEq, Repr, BEq

/-- The string a phase value is at the JavaScript runtime. -/
def phaseToString : PipelinePhase → String
  | .idle => "idle"
  | .planning => "planning"
  | .plan_review => "plan_review"
  | .implementing => "implementing"
  | .impl_review => "impl_review"
  | .reviewing => "reviewing"
  | .review_done => "review_done"
  | .testing => "testing"
  | .completed => "completed"

/-- Inverse of `phaseToString`, used when decoding a persisted record. -/
def phaseOfString (s : String) : Option PipelinePhase :=
  if s = "idle" then some .idle
  else if s = "planning" then some .planning
  else if s = "plan_review" then some .plan_review
  else if s = "implementing" then some .implementing
  else if s = "impl_review" then some .impl_review
  else if s = "reviewing" then some .reviewing
  else if s = "review_done" then some .review_done
  else if s = "testing" then some .testing
  else if s = "completed" then some .completed
  else none

/-- Embedding of the `AgentDefinition` interface of `AgentConfig.ts`. -/
structure AgentDefinition where
  name : String
  displayName : String
  phase : PipelinePhase
  reviewPhase : PipelinePhase
  description : String
  mdcFile : String
  requiredInputs : List String
  outputKey : String
  defaultModel : String
deriving DecidableEq, Repr

/-- The `planner` entry of the `AGENTS` record. -/
def plannerAgent : AgentDefinition :=
  { name := "planner"
    displayName := "Planner"
    phase := .planning
    reviewPhase := .plan_review
    description := "Analyzes the task and creates a detailed implementation plan"
    mdcFile := "planner.mdc"
    requiredInputs := []
    outputKey := "planner"
    defaultModel := "claude-4.5-sonnet" }

/-- The `implementer` entry of the `AGENTS` record. -/
def implementerAgent : AgentDefinition :=
  { name := "implementer"
    displayName := "Implementer"
    phase := .implementing
    reviewPhase := .impl_review
    description := "Implements the code changes according to the plan"
    mdcFile := "implementer.mdc"
    requiredInputs := ["planner"]
    outputKey := "implementer"
    defaultModel := "claude-4.6-opus" }

/-- The `reviewer` entry of the `AGENTS` record. -/
def reviewerAgent : AgentDefinition :=
  { name := "reviewer"
    displayName := "Reviewer"
    phase := .reviewing
    reviewPhase := .review_done
    description := "Reviews the implementation for quality, security, and best practices"
    mdcFile := "reviewer.mdc"
    requiredInputs := ["planner", "implementer"]
    outputKey := "reviewer"
    defaultModel := "gpt-5.2" }

/-- The `test` entry of the `AGENTS` record. -/
def testAgent : AgentDefinition :=
  { name := "test"
    displayName := "Tester"
    phase := .testing
    reviewPhase := .completed
    description := "Creates and runs tests for the implementation"
    mdcFile := "test.mdc"
    requiredInputs := ["planner", "implementer", "reviewer"]
    outputKey := "test"
    defaultModel := "claude-4.5-sonnet" }

/-- The `AGENTS : Record<string, AgentDefinition>` lookup of `AgentConfig.ts`. -/
def AGENTS (name : String) : Option AgentDefinition :=
  if name = "planner" then some plannerAgent
  else if name = "implementer" then some implementerAgent
  else if name = "reviewer" then some reviewerAgent
  else if name = "test" then some testAgent
  else none

/-- The `PHASE_ORDER` list of `AgentConfig.ts` (note: it starts with `idle`). -/
def PHASE_ORDER : List PipelinePhase :=
  [.idle, .planning, .plan_review, .implementing, .impl_review,
   .reviewing, .review_done, .testing, .completed]

/-- The `PHASE_AGENT_MAP` record of `AgentConfig.ts`. -/
def PHASE_AGENT_MAP : PipelinePhase → Option String
  | .planning => some "planner"
  | .implementing => some "implementer"
  | .reviewing => some "reviewer"
  | .testing => some "test"
  | _ => none

/-- The `REVIEW_PHASES` list of `AgentConfig.ts`. -/
def REVIEW_PHASES : List PipelinePhase :=
  [.plan_review, .impl_review, .review_done]

/-- `getAgentForPhase` of `AgentConfig.ts`. -/
def getAgentForPhase (phase : PipelinePhase) : Option AgentDefinition :=
  match PHASE_AGENT_MAP phase with
  | some agentName => AGENTS agentName
  | none => none

/-- `getNextPhaseAfterApproval` of `AgentConfig.ts`: index lookup in
`PHASE_ORDER`; the TS `indexOf` returning `-1` is the `none` branch here. -/
def getNextPhaseAfterApproval (currentPhase : PipelinePhase) : PipelinePhase :=
  match PHASE_ORDER.indexOf? currentPhase with
  | none => .completed
  | some idx =>
    if PHASE_ORDER.length - 1 ≤ idx then .completed
    else PHASE_ORDER.getD (idx + 1) .completed

/-- `getRetryPhase` of `AgentConfig.ts`. -/
def getRetryPhase (currentPhase : PipelinePhase) : PipelinePhase :=
  match currentPhase with
  | .plan_review => .planning
  | .impl_review => .implementing
  | .review_done => .implementing
  | .testing => .implementing
  | p => p

/-- One entry of the `history` array of the `PipelineState` interface
(`storage.ts`): `{phase, action, timestamp, detail?}`. -/
structure HistoryEntry where
  phase : String
  action : String
  timestamp : String
  detail : Option String
deriving DecidableEq, Repr

/-- Embedding of the `PipelineState` interface of `storage.ts`. `outputs` is
an insertion-ordered association list, mirroring a JS string-keyed record;
`currentPhase` (a `string` in TS, always holding one of the nine phase names
in well-formed records) is the phase enum. -/
structure PipelineState where
  currentPhase : PipelinePhase
  taskDescription : String
  outputs : List (String × String)
  history : List HistoryEntry
  createdAt : String
  updatedAt : String
deriving DecidableEq, Repr

/-- `getDefaultState` of `storage.ts`; `now` is `new Date().toISOString()`. -/
def getDefaultState (now : String) : PipelineState :=
  { currentPhase := .idle
    taskDescription := ""
    outputs := []
    history := []
    createdAt := now
    updatedAt := now }

/-- JSON values, for the `JSON.parse` / `JSON.stringify` round trip of the
state file. -/
inductive Json
  | null
  | bool (b : Bool)
  | num (n : Int)
  | str (s : String)
  | arr (elems : List Json)
  | obj (fields : List (String × Json))
deriving Repr

/-- `JSON.stringify` of one history entry: key insertion order
`phase, action, timestamp, detail`, with an `undefined` `detail` omitted. -/
def encodeHistoryEntry (e : HistoryEntry) : Json :=
  Json.obj
    ([("phase", Json.str e.phase), ("action", Json.str e.action),
      ("timestamp", Json.str e.timestamp)] ++
     (match e.detail with
      | some d => [("detail", Json.str d)]
      | none => []))

/-- `JSON.stringify` of a whole `PipelineState`, in interface key order. -/
def encodeState (s : PipelineState) : Json :=
  Json.obj
    [("currentPhase", Json.str (phaseToString s.currentPhase)),
     ("taskDescription", Json.str s.taskDescription),
     ("outputs", Json.obj (s.outputs.map (fun kv => (kv.1, Json.str kv.2)))),
     ("history", Json.arr (s.history.map encodeHistoryEntry)),
     ("createdAt", Json.str s.createdAt),
     ("updatedAt", Json.str s.updatedAt)]

/-- Partial inverse of `encodeHistoryEntry`: recognizes a well-formed
history-entry object. -/
def decodeHistoryEntry : Json → Option HistoryEntry
  | Json.obj [("phase", Json.str p), ("action", Json.str a),
              ("timestamp", Json.str t)] =>
    some { phase := p, action := a, timestamp := t, detail := none }
  | Json.obj [("phase", Json.str p), ("action", Json.str a),
              ("timestamp", Json.str t), ("detail", Json.str d)] =>
    some { phase := p, action := a, timestamp := t, detail := some d }
  | _ => none

/-- Decode the `outputs` object: every field must be a string. -/
def decodeOutputs : List (String × Json) → Option (List (String × String))
  | [] => some []
  | (k, Json.str v) :: rest =>
    (decodeOutputs rest).map (fun r => (k, v) :: r)
  | _ => none

/-- Decode the `history` array entrywise. -/
def decodeHistoryList : List Json → Option (List HistoryEntry)
  | [] => some []
  | j :: rest =>
    match decodeHistoryEntry j, decodeHistoryList rest with
    | some e, some es => some (e :: es)
    | _, _ => none

/-- Partial inverse of `encodeState`: recognizes exactly the well-formed
persisted `PipelineState` records. -/
def decodeState : Json → Option PipelineState
  | Json.obj [("currentPhase", Json.str cp), ("taskDescription", Json.str td),
              ("outputs", Json.obj os), ("history", Json.arr hs),
              ("createdAt", Json.str ca), ("updatedAt", Json.str ua)] =>
    match phaseOfString cp, decodeOutputs os, decodeHistoryList hs with
    | some p, some outs, some hist =>
      some { currentPhase := p, taskDescription := td, outputs := outs,
             history := hist, createdAt := ca, updatedAt := ua }
    | _, _, _ => none
  | _ => none

/-- What reading the state file can observe: the file is absent
(`existsSync` false), present but unreadable or not parseable as JSON
(`readFileSync`/`JSON.parse` throws), or readable with JSON value `j`. -/
inductive FileRead
  | absent
  | unreadable
  | json (j : Json)
deriving Repr

/-- The on-disk `.agent_pipeline/` area: the `state.json` file and the
`outputs/` directory, the latter as a map from agent name to the content of
`outputs/<name>.md`. -/
structure Disk where
  stateFile : FileRead
  outputs : List (String × String)
deriving Repr

/-- JS record-key assignment `m[k] = v`: replace in place if the key exists,
else append. -/
def setKey (m : List (String × String)) (k v : String) : List (String × String) :=
  match m with
  | [] => [(k, v)]
  | (k', v') :: rest => if k' = k then (k, v) :: rest else (k', v') :: setKey rest k v

/-- `loadState` of `storage.ts`: missing file or a read/parse failure yields
the default state; otherwise the result is the raw parsed JSON value — the
`as PipelineState` cast performs no validation, so the result is returned at
the JSON level here. -/
def loadState (file : FileRead) (now : String) : Json :=
  match file with
  | .absent => encodeState (getDefaultState now)
  | .unreadable => encodeState (getDefaultState now)
  | .json j => j

/-- `loadState` as seen through the TS `PipelineState` type: `some` exactly
when the loaded value is a well-formed record. -/
def loadStateS (file : FileRead) (now : String) : Option PipelineState :=
  decodeState (loadState file now)

/-- `saveState` of `storage.ts`: refreshes `updatedAt` on the passed state
object (a visible mutation in TS) and overwrites the state file with its
serialization. Returns the new disk and the mutated state. -/
def saveState (d : Disk) (s : PipelineState) (now : String) : Disk × PipelineState :=
  let s' := { s with updatedAt := now }
  ({ d with stateFile := .json (encodeState s') }, s')

/-- `saveAgentOutput` of `storage.ts`: overwrite `outputs/<agentName>.md`. -/
def saveAgentOutput (d : Disk) (agentName content : String) : Disk :=
  { d with outputs := setKey d.outputs agentName content }

/-- `readAgentOutput` of `storage.ts`: `null` when the file is missing. -/
def readAgentOutput (d : Disk) (agentName : String) : Option String :=
  d.outputs.lookup agentName

/-- `readAllOutputs` of `storage.ts`: all `outputs/*.md` files keyed by base
name (which is how this system writes them). -/
def readAllOutputs (d : Disk) : List (String × String) :=
  d.outputs

/-- `clearPipelineData` of `storage.ts`: remove the whole persisted area and
recreate the empty skeleton. -/
def clearPipelineData (_d : Disk) : Disk :=
  { stateFile := .absent, outputs := [] }

/-- The two guard-failure exceptions thrown by `PipelineManager`
(`throw new Error(...)` at the guard of each operation), carrying the thrown
message. -/
inductive PipelineError
  | invalidTransition (msg : String)
  | noActiveAgent (msg : String)
deriving DecidableEq, Repr

/-- `PipelineManager.addHistory`: push one entry onto `state.history`. -/
def addHistory (s : PipelineState) (phase action : String) (detail : Option String)
    (now : String) : PipelineState :=
  { s with history := s.history ++
      [{ phase := phase, action := action, timestamp := now, detail := detail }] }

/-- `PipelineManager.start`: guard on `idle`/`completed`, then fresh default
state with the task description, phase `planning`, one history entry, and a
persist. -/
def start (s : PipelineState) (d : Disk) (taskDescription now : String) :
    Except PipelineError (PipelineState × Disk) :=
  if s.currentPhase ≠ .idle ∧ s.currentPhase ≠ .completed then
    .error (.invalidTransition
      ("Cannot start pipeline: currently in phase \"" ++
       phaseToString s.currentPhase ++ "\". Reset first."))
  else
    let s1 := { getDefaultState now with
                taskDescription := taskDescription, currentPhase := .planning }
    let s2 := addHistory s1 "planning" "started" (some ("Task: " ++ taskDescription)) now
    let r := saveState d s2 now
    .ok (r.2, r.1)

/-- `PipelineManager.saveCurrentOutput`: guard that the current phase has an
agent; write the output blob, record it in `outputs`, append a history entry,
transition to the agent's review phase, append a second entry, persist. -/
def saveCurrentOutput (s : PipelineState) (d : Disk) (content now : String) :
    Except PipelineError (PipelineState × Disk) :=
  let phase := s.currentPhase
  match getAgentForPhase phase with
  | none =>
    .error (.noActiveAgent
      ("No agent assigned to phase \"" ++ phaseToString phase ++
       "\". Cannot save output."))
  | some agent =>
    let d1 := saveAgentOutput d agent.outputKey content
    let s1 := { s with outputs := setKey s.outputs agent.outputKey content }
    let s2 := addHistory s1 (phaseToString phase) "output_saved"
                (some ("Agent: " ++ agent.name)) now
    let reviewPhase := agent.reviewPhase
    let s3 := { s2 with currentPhase := reviewPhase }
    let s4 := addHistory s3 (phaseToString reviewPhase) "entered"
                (some ("Awaiting review for " ++ agent.name)) now
    let r := saveState d1 s4 now
    .ok (r.2, r.1)

/-- `PipelineManager.approve`: guard that the current phase is a review phase
or `testing`; advance via `getNextPhaseAfterApproval`, append two history
entries, persist. -/
def approve (s : PipelineState) (d : Disk) (now : String) :
    Except PipelineError (PipelineState × Disk) :=
  let phase := s.currentPhase
  if ¬ REVIEW_PHASES.contains phase ∧ phase ≠ .testing then
    .error (.invalidTransition
      ("Cannot approve: not in a review phase (current: \"" ++
       phaseToString phase ++ "\")."))
  else
    let nextPhase := getNextPhaseAfterApproval phase
    let s1 := addHistory s (phaseToString phase) "approved"
                (some ("Advancing to " ++ phaseToString nextPhase)) now
    let s2 := { s1 with currentPhase := nextPhase }
    let s3 := addHistory s2 (phaseToString nextPhase) "entered" none now
    let r := saveState d s3 now
    .ok (r.2, r.1)

/-- `PipelineManager.reject`: same guard as `approve`; retreat via
`getRetryPhase`, append two history entries (the first with the feedback, or
a placeholder when the feedback is missing or the empty string — the TS
`feedback || '...'`), persist. -/
def reject (s : PipelineState) (d : Disk) (feedback : Option String) (now : String) :
    Except PipelineError (PipelineState × Disk) :=
  let phase := s.currentPhase
  if ¬ REVIEW_PHASES.contains phase ∧ phase ≠ .testing then
    .error (.invalidTransition
      ("Cannot reject: not in a review phase (current: \"" ++
       phaseToString phase ++ "\")."))
  else
    let retryPhase := getRetryPhase phase
    let fb := match feedback with
      | some f => if f = "" then "No feedback provided" else f
      | none => "No feedback provided"
    let s1 := addHistory s (phaseToString phase) "rejected" (some fb) now
    let s2 := { s1 with currentPhase := retryPhase }
    let s3 := addHistory s2 (phaseToString retryPhase) "entered"
                (some "Retry after rejection") now
    let r := saveState d s3 now
    .ok (r.2, r.1)

/-- `PipelineManager.reset`: clear the persisted area, recreate the default
state, persist it. -/
def reset (_s : PipelineState) (d : Disk) (now : String) : PipelineState × Disk :=
  let d1 := clearPipelineData d
  let s1 := getDefaultState now
  let r := saveState d1 s1 now
  (r.2, r.1)

/-- `PipelineManager.reload`: replace the in-memory state with whatever
`loadState` yields from the current store; the disk is not written. The
result is at the JSON level because `loadState` performs no validation. -/
def reload (d : Disk) (now : String) : Json :=
  loadState d.stateFile now

/-- The `phaseMap` record inside the `pipeline_save_output` MCP tool
(`server.ts`): agent name to the review phase entered after its output. -/
def mcpPhaseMap (agentName : String) : Option PipelinePhase :=
  if agentName = "planner" then some .plan_review
  else if agentName = "implementer" then some .impl_review
  else if agentName = "reviewer" then some .review_done
  else if agentName = "test" then some .completed
  else none

/-- The `pipeline_save_output` MCP tool (`server.ts`): load the persisted
state, record the output in `outputs` and as a blob, push an `output_saved`
history entry, and — only when the agent name is recognized by `phaseMap` —
set the review phase and push an `entered` entry; then persist. `none` models
the TS crash when the loaded record is not a well-formed state object (the
unchecked cast makes `state.outputs[...]` throw on garbage). -/
def mcpSaveOutput (d : Disk) (agentName output now : String) : Option Disk :=
  match decodeState (loadState d.stateFile now) with
  | none => none
  | some s =>
    let s1 := { s with outputs := setKey s.outputs agentName output }
    let d1 := { d with outputs := setKey d.outputs agentName output }
    let s2 := addHistory s1 (phaseToString s.currentPhase) "output_saved"
                (some ("Agent " ++ agentName ++ " saved output")) now
    let s3 := match mcpPhaseMap agentName with
      | some nextPhase =>
        addHistory { s2 with currentPhase := nextPhase }
          (phaseToString nextPhase) "entered"
          (some ("Transitioned after " ++ agentName ++ " output")) now
      | none => s2
    some (saveState d1 s3 now).1

/-- Reading back the serialized phase name yields the phase. -/
theorem phaseOfString_phaseToString (p : PipelinePhase) :
    phaseOfString (phaseToString p) = some p := by
  cases p <;> rfl

/-- Decoding an encoded history entry yields the entry. -/
theorem decodeHistoryEntry_encodeHistoryEntry (e : HistoryEntry) :
    decodeHistoryEntry (encodeHistoryEntry e) = some e := by
  rcases e with ⟨p, a, t, d⟩
  cases d <;> rfl

/-- Decoding an encoded outputs object yields the outputs list. -/
theorem decodeOutputs_encode (outs : List (String × String)) :
    decodeOutputs (outs.map (fun kv => (kv.1, Json.str kv.2))) = some outs := by
  induction outs with
  | nil => rfl
  | cons kv rest ih =>
    rcases kv with ⟨k, v⟩
    simp [decodeOutputs, ih]

/-- Decoding an encoded history array yields the history list. -/
theorem decodeHistoryList_encode (hs : List HistoryEntry) :
    decodeHistoryList (hs.map encodeHistoryEntry) = some hs := by
  induction hs with
  | nil => rfl
  | cons e rest ih =>
    simp [decodeHistoryList, decodeHistoryEntry_encodeHistoryEntry, ih]

/-- The state record survives the serialize/parse round trip intact. -/
theorem decodeState_encodeState (s : PipelineState) :
    decodeState (encodeState s) = some s := by
  rcases s with ⟨cp, td, outs, hist, ca, ua⟩
  simp [encodeState, decodeState, phaseOfString_phaseToString,
    decodeOutputs_encode, decodeHistoryList_encode]

/-- JS record assignment never deletes a key. -/
theorem setKey_keys_superset (m : List (String × String)) (k v k' : String)
    (h : k' ∈ m.map Prod.fst) : k' ∈ (setKey m k v).map Prod.fst := by
  induction m with
  | nil => simp at h
  | cons kv rest ih =>
    rcases kv with ⟨a, b⟩
    by_cases hak : a = k
    · subst hak
      simp only [setKey, if_pos rfl]
      simpa using h
    · simp only [setKey, if_neg hak, List.map_cons, List.mem_cons] at h ⊢
      rcases h with h | h
      · exact Or.inl h
      · exact Or.inr (ih h)

/-- The state `saveCurrentOutput` computes and persists when `agent` is the
active agent (spelled out for use in characterization lemmas). -/
def managerSaveResult (s : PipelineState) (agent : AgentDefinition)
    (c now : String) : PipelineState :=
  { addHistory
      { addHistory { s with outputs := setKey s.outputs agent.outputKey c }
          (phaseToString s.currentPhase) "output_saved"
          (some ("Agent: " ++ agent.name)) now
        with currentPhase := agent.reviewPhase }
      (phaseToString agent.reviewPhase) "entered"
      (some ("Awaiting review for " ++ agent.name)) now
    with updatedAt := now }

/-- The state the `pipeline_save_output` MCP tool computes and persists,
starting from loaded state `s` (spelled out for characterization lemmas). -/
def mcpResult (s : PipelineState) (a c now : String) : PipelineState :=
  { (match mcpPhaseMap a with
     | some nextPhase =>
        addHistory
          { addHistory { s with outputs := setKey s.outputs a c }
              (phaseToString s.currentPhase) "output_saved"
              (some ("Agent " ++ a ++ " saved output")) now
            with currentPhase := nextPhase }
          (phaseToString nextPhase) "entered"
          (some ("Transitioned after " ++ a ++ " output")) now
     | none =>
        addHistory { s with outputs := setKey s.outputs a c }
          (phaseToString s.currentPhase) "output_saved"
          (some ("Agent " ++ a ++ " saved output")) now)
    with updatedAt := now }

/-- Successful `saveCurrentOutput` fully characterized. -/
theorem saveCurrentOutput_ok_eq (s : PipelineState) (d : Disk) (c now : String)
    (agent : AgentDefinition)
    (hag : getAgentForPhase s.currentPhase = some agent) :
    saveCurrentOutput s d c now =
      .ok (managerSaveResult s agent c now,
           { stateFile := .json (encodeState (managerSaveResult s agent c now)),
             outputs := setKey d.outputs agent.outputKey c }) := by
  simp only [saveCurrentOutput, hag, saveState, saveAgentOutput, managerSaveResult]

/-- `pipeline_save_output` on a store in sync with state `s`, fully
characterized: it always succeeds, writing the blob and the new record. -/
theorem mcpSaveOutput_sync (s : PipelineState) (dout : List (String × String))
    (a c now : String) :
    mcpSaveOutput { stateFile := .json (encodeState s), outputs := dout } a c now =
      some { stateFile := .json (encodeState (mcpResult s a c now)),
             outputs := setKey dout a c } := by
  cases hmap : mcpPhaseMap a <;>
    simp only [mcpSaveOutput, loadState, decodeState_encodeState, hmap,
      mcpResult, saveState]

/-- C2 counterexample: the claim says `getNextPhaseAfterApproval` returns
`completed` for `idle` (treating `idle` as outside the order), but the
source's `PHASE_ORDER` begins with `idle`, so `idle` maps to its successor
`planning`, which is not `completed`. -/
theorem c2_counterexample :
    getNextPhaseAfterApproval .idle = .planning ∧
    PipelinePhase.planning ≠ PipelinePhase.completed := by
  decide

/-- C2 (amended): `getNextPhaseAfterApproval` returns the phase immediately
following its argument in the fixed linear order
`[idle, planning, plan_review, implementing, impl_review, reviewing,
review_done, testing, completed]` (the source's `PHASE_ORDER`, which includes
`idle`), and returns `completed` when the argument is the last element; in
particular `idle` maps to `planning`, not `completed`. Stated as the full
value table over `PHASE_ORDER`, which enumerates every phase. -/
theorem c2_amended :
    PHASE_ORDER.map getNextPhaseAfterApproval =
      [.planning, .plan_review, .implementing, .impl_review, .reviewing,
       .review_done, .testing, .completed, .completed] := by
  decide

/-- C6 counterexample: the claim says `getRetryPhase` never returns
`reviewing`, but the default arm maps every non-review, non-testing phase to
itself, so the input `reviewing` is mapped to `reviewing` itself. -/
theorem c6_counterexample :
    getRetryPhase .reviewing = .reviewing ∧
    (PHASE_ORDER.map getRetryPhase).contains .reviewing = true := by
  decide

/-- C6 (amended): `getRetryPhase` maps `plan_review` to `planning`,
`impl_review` to `implementing`, `review_done` to `implementing`, `testing`
to `implementing`, and every other phase to itself; it returns `testing` for
no input, and it returns `reviewing` only for the identity case of the input
`reviewing` itself — in particular for no review-phase or `testing` input
does it return `reviewing` or `testing`. Stated as the full value table over
`PHASE_ORDER` plus the non-occurrence facts. -/
theorem c6_amended :
    PHASE_ORDER.map getRetryPhase =
      [.idle, .planning, .planning, .implementing, .implementing,
       .reviewing, .implementing, .implementing, .completed] ∧
    (PHASE_ORDER.map getRetryPhase).contains .testing = false ∧
    ((REVIEW_PHASES ++ [PipelinePhase.testing]).map getRetryPhase).contains
      .reviewing = false ∧
    ((REVIEW_PHASES ++ [PipelinePhase.testing]).map getRetryPhase).contains
      .testing = false := by
  decide

/-- C5 counterexample: a state file holding the JSON value `42` exists and
parses, but is not a well-formed `PipelineState` record
(`decodeState` rejects it); `loadState` nevertheless returns it unchanged —
the `as PipelineState` cast validates nothing — rather than the default
state (whose encoding always decodes to `some`). -/
theorem c5_counterexample :
    loadState (FileRead.json (Json.num 42)) "2024-01-01T00:00:00.000Z" =
      Json.num 42 ∧
    decodeState (Json.num 42) = none ∧
    decodeState (loadState FileRead.absent "2024-01-01T00:00:00.000Z") =
      some (getDefaultState "2024-01-01T00:00:00.000Z") := by
  refine ⟨rfl, rfl, ?_⟩
  exact decodeState_encodeState _

/-- C5 (amended): `loadState` never raises (it is total here, mirroring the
try/catch around every fallible call in the source) and returns the default
state exactly when the record is absent or unreadable/unparseable as JSON; a
record that parses as JSON is returned as-is, without any validation that it
is a well-formed `PipelineState` record. -/
theorem c5_amended :
    ∀ (now : String) (j : Json),
      loadState FileRead.absent now = encodeState (getDefaultState now) ∧
      loadState FileRead.unreadable now = encodeState (getDefaultState now) ∧
      loadState (FileRead.json j) now = j ∧
      loadStateS FileRead.absent now = some (getDefaultState now) ∧
      loadStateS FileRead.unreadable now = some (getDefaultState now) := by
  intro now j
  refine ⟨rfl, rfl, rfl, ?_, ?_⟩ <;>
    simpa [loadStateS, loadState] using decodeState_encodeState (getDefaultState now)

/-- C7: `saveState` followed by `loadState` yields exactly the saved state,
which differs from the input state at most in `updatedAt` (refreshed to the
save time); `currentPhase`, `taskDescription`, `outputs`, `history` and
`createdAt` are all preserved. -/
theorem c7_save_load_roundtrip :
    ∀ (s : PipelineState) (d : Disk) (now now2 : String),
      decodeState (loadState ((saveState d s now).1.stateFile) now2) =
        some ((saveState d s now).2) ∧
      (saveState d s now).2 = { s with updatedAt := now } := by
  intro s d now now2
  exact ⟨decodeState_encodeState _, rfl⟩

/-- C8 counterexample: with no state record on disk, each `reload` builds a
fresh default state stamped with the current time, so two reloads at
different instants yield states differing in `createdAt`/`updatedAt` — not
identical, contrary to the claim's "including the case where no state record
exists on disk". -/
theorem c8_counterexample :
    (decodeState (reload { stateFile := .absent, outputs := [] }
        "2024-01-01T00:00:00.000Z")).map PipelineState.createdAt =
      some "2024-01-01T00:00:00.000Z" ∧
    (decodeState (reload { stateFile := .absent, outputs := [] }
        "2024-01-01T00:00:00.001Z")).map PipelineState.createdAt =
      some "2024-01-01T00:00:00.001Z" ∧
    reload { stateFile := .absent, outputs := [] } "2024-01-01T00:00:00.000Z" ≠
      reload { stateFile := .absent, outputs := [] } "2024-01-01T00:00:00.001Z" := by
  refine ⟨?_, ?_, ?_⟩
  · simpa [reload, loadState] using
      congrArg (Option.map PipelineState.createdAt)
        (decodeState_encodeState (getDefaultState "2024-01-01T00:00:00.000Z"))
  · simpa [reload, loadState] using
      congrArg (Option.map PipelineState.createdAt)
        (decodeState_encodeState (getDefaultState "2024-01-01T00:00:00.001Z"))
  · intro h
    have h2 := congrArg decodeState h
    simp only [reload, loadState, decodeState_encodeState, Option.some.injEq] at h2
    have h3 := congrArg PipelineState.createdAt h2
    simp [getDefaultState] at h3

/-- C8 (amended): `reload` writes nothing, and two consecutive reloads with
no intervening external write yield literally identical state whenever a
parseable record exists on disk (first conjunct: any `json` record, at any
two reload times); when the record is absent or unreadable (second and third
conjuncts) the two results are two fresh default states, identical in
`currentPhase`, `taskDescription`, `outputs` and `history` but carrying each
reload's own timestamp in `createdAt`/`updatedAt`, so they differ whenever
the two instants differ. -/
theorem c8_amended :
    (∀ (j : Json) (outs : List (String × String)) (t1 t2 : String),
       reload { stateFile := FileRead.json j, outputs := outs } t1 =
         reload { stateFile := FileRead.json j, outputs := outs } t2) ∧
    (∀ (outs : List (String × String)) (t1 t2 : String),
       ∃ s1 s2,
         decodeState (reload { stateFile := FileRead.absent, outputs := outs } t1) =
           some s1 ∧
         decodeState (reload { stateFile := FileRead.absent, outputs := outs } t2) =
           some s2 ∧
         s1.currentPhase = s2.currentPhase ∧
         s1.taskDescription = s2.taskDescription ∧
         s1.outputs = s2.outputs ∧ s1.history = s2.history ∧
         s1.createdAt = t1 ∧ s1.updatedAt = t1 ∧
         s2.createdAt = t2 ∧ s2.updatedAt = t2) ∧
    (∀ (outs : List (String × String)) (t1 t2 : String),
       ∃ s1 s2,
         decodeState (reload { stateFile := FileRead.unreadable, outputs := outs } t1) =
           some s1 ∧
         decodeState (reload { stateFile := FileRead.unreadable, outputs := outs } t2) =
           some s2 ∧
         s1.currentPhase = s2.currentPhase ∧
         s1.taskDescription = s2.taskDescription ∧
         s1.outputs = s2.outputs ∧ s1.history = s2.history ∧
         s1.createdAt = t1 ∧ s1.updatedAt = t1 ∧
         s2.createdAt = t2 ∧ s2.updatedAt = t2) := by
  refine ⟨fun j outs t1 t2 => rfl, fun outs t1 t2 => ?_, fun outs t1 t2 => ?_⟩
  · exact ⟨getDefaultState t1, getDefaultState t2,
      decodeState_encodeState _, decodeState_encodeState _,
      rfl, rfl, rfl, rfl, rfl, rfl, rfl, rfl⟩
  · exact ⟨getDefaultState t1, getDefaultState t2,
      decodeState_encodeState _, decodeState_encodeState _,
      rfl, rfl, rfl, rfl, rfl, rfl, rfl, rfl⟩

/-- An empty persisted area, used as a concrete starting point. -/
def sampleDisk : Disk := { stateFile := .absent, outputs := [] }

/-- A concrete state in phase `completed` with one recorded output. -/
def stateCompletedS : PipelineState :=
  { currentPhase := .completed, taskDescription := "t",
    outputs := [("planner", "old plan")], history := [],
    createdAt := "T0", updatedAt := "T0" }

/-- A concrete state in phase `planning` with one recorded output. -/
def statePlanningS : PipelineState :=
  { currentPhase := .planning, taskDescription := "t",
    outputs := [("planner", "p0")], history := [],
    createdAt := "T0", updatedAt := "T0" }

/-- A concrete state in phase `impl_review` with two recorded outputs. -/
def stateImplReviewS : PipelineState :=
  { currentPhase := .impl_review, taskDescription := "t",
    outputs := [("planner", "p"), ("implementer", "i")], history := [],
    createdAt := "T0", updatedAt := "T0" }

/-- Successful `start` fully characterized: a fresh default state with the
task, phase `planning`, a single history entry, persisted; only the state
file on disk changes. -/
theorem start_ok_eq (s : PipelineState) (d : Disk) (task now : String)
    (h : s.currentPhase = .idle ∨ s.currentPhase = .completed) :
    start s d task now =
      .ok ({ currentPhase := .planning, taskDescription := task, outputs := [],
             history := [{ phase := "planning", action := "started",
                           timestamp := now, detail := some ("Task: " ++ task) }],
             createdAt := now, updatedAt := now },
           { d with stateFile := .json (encodeState
              { currentPhase := .planning, taskDescription := task, outputs := [],
                history := [{ phase := "planning", action := "started",
                              timestamp := now, detail := some ("Task: " ++ task) }],
                createdAt := now, updatedAt := now }) }) := by
  have hcond : ¬ (s.currentPhase ≠ .idle ∧ s.currentPhase ≠ .completed) := by
    rcases h with h | h <;> simp [h]
  simp only [start, if_neg hcond]
  rfl

/-- C3 counterexample: `start` invoked in phase `completed` (a legal start)
resets the in-memory outputs map to empty, removing the existing key
`planner` — contradicting the claim that `start` never removes an existing
output key. -/
theorem c3_counterexample :
    stateCompletedS.outputs = [("planner", "old plan")] ∧
    (start stateCompletedS sampleDisk "new task" "T1").map
      (fun r => r.1.outputs) = .ok [] := by
  refine ⟨rfl, ?_⟩
  rw [start_ok_eq stateCompletedS sampleDisk "new task" "T1" (Or.inr rfl)]
  rfl

/-- C3 (amended): across Controller operations other than `start` and
`reset`, the in-memory outputs map only gains keys — `saveOutput` can
overwrite but never removes a key, and `approve`/`reject` leave the map
untouched; `start`, however, resets the outputs map to empty exactly like a
reset (the persisted blobs are a separate matter, see the frame property of
`start`). -/
theorem c3_amended :
    (∀ (s : PipelineState) (d : Disk) (c now : String)
       (s' : PipelineState) (d' : Disk),
       saveCurrentOutput s d c now = .ok (s', d') →
       ∀ k, k ∈ s.outputs.map Prod.fst → k ∈ s'.outputs.map Prod.fst) ∧
    (∀ (s : PipelineState) (d : Disk) (now : String)
       (s' : PipelineState) (d' : Disk),
       approve s d now = .ok (s', d') → s'.outputs = s.outputs) ∧
    (∀ (s : PipelineState) (d : Disk) (fb : Option String) (now : String)
       (s' : PipelineState) (d' : Disk),
       reject s d fb now = .ok (s', d') → s'.outputs = s.outputs) ∧
    (∀ (s : PipelineState) (d : Disk) (task now : String)
       (s' : PipelineState) (d' : Disk),
       start s d task now = .ok (s', d') → s'.outputs = []) := by
  refine ⟨?_, ?_, ?_, ?_⟩
  · intro s d c now s' d' h k hk
    rcases hag : getAgentForPhase s.currentPhase with _ | agent
    · simp only [saveCurrentOutput, hag] at h
      exact absurd h (by simp)
    · simp only [saveCurrentOutput, hag, saveState, saveAgentOutput, addHistory,
        Except.ok.injEq, Prod.mk.injEq] at h
      obtain ⟨hs, -⟩ := h
      subst hs
      exact setKey_keys_superset _ _ _ _ hk
  · intro s d now s' d' h
    simp only [approve] at h
    split at h
    · exact absurd h (by simp)
    · simp only [saveState, addHistory, Except.ok.injEq, Prod.mk.injEq] at h
      obtain ⟨hs, -⟩ := h
      subst hs
      rfl
  · intro s d fb now s' d' h
    simp only [reject] at h
    split at h
    · exact absurd h (by simp)
    · simp only [saveState, addHistory, Except.ok.injEq, Prod.mk.injEq] at h
      obtain ⟨hs, -⟩ := h
      subst hs
      rfl
  · intro s d task now s' d' h
    simp only [start] at h
    split at h
    · exact absurd h (by simp)
    · simp only [saveState, addHistory, getDefaultState, Except.ok.injEq,
        Prod.mk.injEq] at h
      obtain ⟨hs, -⟩ := h
      subst hs
      rfl

/-- C3 witness: the amended claim applied at concrete inputs — a
`saveOutput` in `planning` keeps the existing `planner` key, an `approve`
and a `reject` in `impl_review` keep the outputs unchanged, and a `start`
from `completed` yields an empty outputs map. -/
theorem c3_witness :
    (∃ s' d', saveCurrentOutput statePlanningS sampleDisk "c" "T1" = .ok (s', d') ∧
      "planner" ∈ s'.outputs.map Prod.fst) ∧
    (∃ s' d', approve stateImplReviewS sampleDisk "T1" = .ok (s', d') ∧
      s'.outputs = stateImplReviewS.outputs) ∧
    (∃ s' d', reject stateImplReviewS sampleDisk (some "fix it") "T1" = .ok (s', d') ∧
      s'.outputs = stateImplReviewS.outputs) ∧
    (∃ s' d', start stateCompletedS sampleDisk "task2" "T1" = .ok (s', d') ∧
      s'.outputs = []) := by
  refine ⟨⟨_, _, rfl, ?_⟩, ⟨_, _, rfl, ?_⟩, ⟨_, _, rfl, ?_⟩, ⟨_, _, rfl, ?_⟩⟩
  · exact c3_amended.1 statePlanningS sampleDisk "c" "T1" _ _ rfl "planner" (by decide)
  · exact c3_amended.2.1 stateImplReviewS sampleDisk "T1" _ _ rfl
  · exact c3_amended.2.2.1 stateImplReviewS sampleDisk (some "fix it") "T1" _ _ rfl
  · exact c3_amended.2.2.2 stateCompletedS sampleDisk "task2" "T1" _ _ rfl

/-- C4: every Controller operation enforces its phase guard internally and
fails fast with a typed error, mutating nothing — `start` outside
`idle`/`completed` and `approve`/`reject` outside a review phase or
`testing` yield `InvalidTransition`, and `saveOutput` in a phase with no
associated agent yields `NoActiveAgent`. In this embedding every operation
is a pure function returning `Except`, with the guard as the first step
exactly as in the source, so an error result leaves the in-memory state,
history and persisted store exactly as they were. -/
theorem c4_guards_fail_fast :
    (∀ (s : PipelineState) (d : Disk) (task now : String),
       s.currentPhase ≠ .idle → s.currentPhase ≠ .completed →
       ∃ m, start s d task now = .error (.invalidTransition m)) ∧
    (∀ (s : PipelineState) (d : Disk) (c now : String),
       getAgentForPhase s.currentPhase = none →
       ∃ m, saveCurrentOutput s d c now = .error (.noActiveAgent m)) ∧
    (∀ (s : PipelineState) (d : Disk) (now : String),
       REVIEW_PHASES.contains s.currentPhase = false → s.currentPhase ≠ .testing →
       ∃ m, approve s d now = .error (.invalidTransition m)) ∧
    (∀ (s : PipelineState) (d : Disk) (fb : Option String) (now : String),
       REVIEW_PHASES.contains s.currentPhase = false → s.currentPhase ≠ .testing →
       ∃ m, reject s d fb now = .error (.invalidTransition m)) := by
  refine ⟨?_, ?_, ?_, ?_⟩
  · intro s d task now h1 h2
    exact ⟨"Cannot start pipeline: currently in phase \"" ++
        phaseToString s.currentPhase ++ "\". Reset first.",
      by simp only [start, if_pos (And.intro h1 h2)]⟩
  · intro s d c now h
    exact ⟨"No agent assigned to phase \"" ++ phaseToString s.currentPhase ++
        "\". Cannot save output.",
      by simp only [saveCurrentOutput, h]⟩
  · intro s d now h1 h2
    have hc : ¬ (REVIEW_PHASES.contains s.currentPhase = true) := by simp [h1]
    exact ⟨"Cannot approve: not in a review phase (current: \"" ++
        phaseToString s.currentPhase ++ "\").",
      by simp only [approve, if_pos (And.intro hc h2)]⟩
  · intro s d fb now h1 h2
    have hc : ¬ (REVIEW_PHASES.contains s.currentPhase = true) := by simp [h1]
    exact ⟨"Cannot reject: not in a review phase (current: \"" ++
        phaseToString s.currentPhase ++ "\").",
      by simp only [reject, if_pos (And.intro hc h2)]⟩

/-- C4 witness: the guards applied at concrete illegal invocations —
`start` during `planning`, `saveOutput` in `idle` (no agent),
`approve` during `planning`, and `reject` during `completed`. -/
theorem c4_witness :
    (∃ m, start statePlanningS sampleDisk "task" "T1" =
      .error (.invalidTransition m)) ∧
    (∃ m, saveCurrentOutput (getDefaultState "T0") sampleDisk "c" "T1" =
      .error (.noActiveAgent m)) ∧
    (∃ m, approve statePlanningS sampleDisk "T1" =
      .error (.invalidTransition m)) ∧
    (∃ m, reject stateCompletedS sampleDisk none "T1" =
      .error (.invalidTransition m)) := by
  refine ⟨?_, ?_, ?_, ?_⟩
  · exact c4_guards_fail_fast.1 statePlanningS sampleDisk "task" "T1"
      (by decide) (by decide)
  · exact c4_guards_fail_fast.2.1 (getDefaultState "T0") sampleDisk "c" "T1" rfl
  · exact c4_guards_fail_fast.2.2.1 statePlanningS sampleDisk "T1" rfl (by decide)
  · exact c4_guards_fail_fast.2.2.2 stateCompletedS sampleDisk none "T1" rfl
      (by decide)

/-- C9: a successful `start` leaves every per-agent output blob in the
persisted store untouched — `readAgentOutput` and `readAllOutputs` return
exactly what they returned before — even though the new in-memory outputs
map is empty. -/
theorem c9_start_preserves_blobs :
    ∀ (s : PipelineState) (d : Disk) (task now : String)
      (s' : PipelineState) (d' : Disk),
      start s d task now = .ok (s', d') →
      d'.outputs = d.outputs ∧
      readAllOutputs d' = readAllOutputs d ∧
      (∀ a, readAgentOutput d' a = readAgentOutput d a) ∧
      s'.outputs = [] := by
  intro s d task now s' d' h
  simp only [start] at h
  split at h
  · exact absurd h (by simp)
  · simp only [saveState, addHistory, getDefaultState, Except.ok.injEq,
      Prod.mk.injEq] at h
    obtain ⟨hs, hd⟩ := h
    subst hs
    subst hd
    exact ⟨rfl, rfl, fun a => rfl, rfl⟩

/-- C9 witness: starting over from `completed` with a `planner` blob on
disk — the blob is still readable afterwards while the in-memory outputs
are empty. -/
theorem c9_witness :
    ∃ s' d', start stateCompletedS
        { stateFile := .json (encodeState stateCompletedS),
          outputs := [("planner", "old plan")] } "task2" "T1" = .ok (s', d') ∧
      readAgentOutput d' "planner" = some "old plan" ∧
      s'.outputs = [] := by
  refine ⟨_, _, rfl, ?_, ?_⟩
  · have h := c9_start_preserves_blobs stateCompletedS
      { stateFile := .json (encodeState stateCompletedS),
        outputs := [("planner", "old plan")] } "task2" "T1" _ _ rfl
    rw [h.2.2.1 "planner"]
    rfl
  · exact (c9_start_preserves_blobs stateCompletedS
      { stateFile := .json (encodeState stateCompletedS),
        outputs := [("planner", "old plan")] } "task2" "T1" _ _ rfl).2.2.2

/-- C10: the MCP tool `pipeline_save_output` applies no phase guard and
never fails on a well-formed persisted state: whatever the current phase
(idle and completed included), it records the output in the outputs map and
as a blob; for a recognized agent name it moves `currentPhase` to that
agent's review phase (`plan_review` / `impl_review` / `review_done` /
`completed` respectively) and appends two history entries, while for an
unrecognized agent name it still records the output with one history entry
and leaves `currentPhase` unchanged. -/
theorem c10_mcp_save_no_guard :
    ∀ (s : PipelineState) (dout : List (String × String)) (a c now : String),
      ∃ d' s',
        mcpSaveOutput { stateFile := .json (encodeState s), outputs := dout }
          a c now = some d' ∧
        decodeState (loadState d'.stateFile now) = some s' ∧
        d'.outputs = setKey dout a c ∧
        s'.outputs = setKey s.outputs a c ∧
        (match mcpPhaseMap a with
         | some ph =>
            s'.currentPhase = ph ∧ s'.history.length = s.history.length + 2
         | none =>
            s'.currentPhase = s.currentPhase ∧
            s'.history.length = s.history.length + 1) ∧
        mcpPhaseMap "planner" = some .plan_review ∧
        mcpPhaseMap "implementer" = some .impl_review ∧
        mcpPhaseMap "reviewer" = some .review_done ∧
        mcpPhaseMap "test" = some .completed := by
  intro s dout a c now
  refine ⟨_, _, mcpSaveOutput_sync s dout a c now, decodeState_encodeState _,
    rfl, ?_, ?_, rfl, rfl, rfl, rfl⟩
  · cases hmap : mcpPhaseMap a <;> simp [mcpResult, hmap, addHistory]
  · cases hmap : mcpPhaseMap a <;> simp [mcpResult, hmap, addHistory]

/-- A store in sync with `statePlanningS`, with no output blobs yet. -/
def c1syncDisk : Disk :=
  { stateFile := .json (encodeState statePlanningS), outputs := [] }

/-- C1 counterexample: in phase `planning`, saving the same content through
the Controller and through the MCP tool produces history entries with
different `detail` texts ("Agent: planner" / "Awaiting review for planner"
from the Controller versus "Agent planner saved output" / "Transitioned
after planner output" from the MCP tool), so the two post-states are not
the same. -/
theorem c1_counterexample :
    (saveCurrentOutput statePlanningS c1syncDisk "plan" "T1").map
        (fun r => r.1.history.map (fun e => e.detail)) =
      .ok [some "Agent: planner", some "Awaiting review for planner"] ∧
    ((mcpSaveOutput c1syncDisk "planner" "plan" "T1").bind
        (fun d' => decodeState (loadState d'.stateFile "T1"))).map
        (fun s' => s'.history.map (fun e => e.detail)) =
      some [some "Agent planner saved output",
            some "Transitioned after planner output"] ∧
    ([some "Agent: planner", some "Awaiting review for planner"] :
        List (Option String)) ≠
      [some "Agent planner saved output",
       some "Transitioned after planner output"] := by
  exact ⟨rfl, rfl, by decide⟩

/-- C1 (amended): for every agent and every state whose current phase is
that agent's work phase (with the store in sync with memory), the MCP tool
`pipeline_save_output` and the Controller's `saveCurrentOutput` produce the
same post-state in `currentPhase`, `taskDescription`, the outputs map, the
output blobs, `createdAt` and `updatedAt`, and append history entries that
agree in `phase`, `action` and `timestamp` — but the `detail` texts of the
two appended history entries differ between the two paths, so the
post-states are equal only up to those detail strings. -/
theorem c1_amended :
    ∀ (s : PipelineState) (dout : List (String × String)) (a : String)
      (agent : AgentDefinition) (c now : String),
      AGENTS a = some agent → s.currentPhase = agent.phase →
      ∃ sM dM dW sW,
        saveCurrentOutput s
          { stateFile := .json (encodeState s), outputs := dout } c now =
          .ok (sM, dM) ∧
        mcpSaveOutput { stateFile := .json (encodeState s), outputs := dout }
          a c now = some dW ∧
        decodeState (loadState dW.stateFile now) = some sW ∧
        sW.currentPhase = sM.currentPhase ∧
        sW.taskDescription = sM.taskDescription ∧
        sW.outputs = sM.outputs ∧
        sW.createdAt = sM.createdAt ∧
        sW.updatedAt = sM.updatedAt ∧
        dW.outputs = dM.outputs ∧
        sW.history.map (fun e => (e.phase, e.action, e.timestamp)) =
          sM.history.map (fun e => (e.phase, e.action, e.timestamp)) := by
  intro s dout a agent c now hAg hphase
  simp only [AGENTS] at hAg
  by_cases h1 : a = "planner"
  · subst h1
    rw [if_pos rfl] at hAg
    injection hAg with hAgent
    subst hAgent
    have hag2 : getAgentForPhase s.currentPhase = some plannerAgent := by
      rw [hphase]; rfl
    have hm : mcpPhaseMap "planner" = some PipelinePhase.plan_review := rfl
    refine ⟨managerSaveResult s plannerAgent c now, _, _,
      mcpResult s "planner" c now,
      saveCurrentOutput_ok_eq s
        { stateFile := .json (encodeState s), outputs := dout } c now
        plannerAgent hag2,
      mcpSaveOutput_sync s dout "planner" c now,
      decodeState_encodeState _, rfl, rfl, rfl, rfl, rfl, rfl, ?_⟩
    simp [mcpResult, managerSaveResult, addHistory, hm, plannerAgent,
      phaseToString, List.map_append]
  · rw [if_neg h1] at hAg
    by_cases h2 : a = "implementer"
    · subst h2
      rw [if_pos rfl] at hAg
      injection hAg with hAgent
      subst hAgent
      have hag2 : getAgentForPhase s.currentPhase = some implementerAgent := by
        rw [hphase]; rfl
      have hm : mcpPhaseMap "implementer" = some PipelinePhase.impl_review := rfl
      refine ⟨managerSaveResult s implementerAgent c now, _, _,
        mcpResult s "implementer" c now,
        saveCurrentOutput_ok_eq s
          { stateFile := .json (encodeState s), outputs := dout } c now
          implementerAgent hag2,
        mcpSaveOutput_sync s dout "implementer" c now,
        decodeState_encodeState _, rfl, rfl, rfl, rfl, rfl, rfl, ?_⟩
      simp [mcpResult, managerSaveResult, addHistory, hm, implementerAgent,
        phaseToString, List.map_append]
    · rw [if_neg h2] at hAg
      by_cases h3 : a = "reviewer"
      · subst h3
        rw [if_pos rfl] at hAg
        injection hAg with hAgent
        subst hAgent
        have hag2 : getAgentForPhase s.currentPhase = some reviewerAgent := by
          rw [hphase]; rfl
        have hm : mcpPhaseMap "reviewer" = some PipelinePhase.review_done := rfl
        refine ⟨managerSaveResult s reviewerAgent c now, _, _,
          mcpResult s "reviewer" c now,
          saveCurrentOutput_ok_eq s
            { stateFile := .json (encodeState s), outputs := dout } c now
            reviewerAgent hag2,
          mcpSaveOutput_sync s dout "reviewer" c now,
          decodeState_encodeState _, rfl, rfl, rfl, rfl, rfl, rfl, ?_⟩
        simp [mcpResult, managerSaveResult, addHistory, hm, reviewerAgent,
          phaseToString, List.map_append]
      · rw [if_neg h3] at hAg
        by_cases h4 : a = "test"
        · subst h4
          rw [if_pos rfl] at hAg
          injection hAg with hAgent
          subst hAgent
          have hag2 : getAgentForPhase s.currentPhase = some testAgent := by
            rw [hphase]; rfl
          have hm : mcpPhaseMap "test" = some PipelinePhase.completed := rfl
          refine ⟨managerSaveResult s testAgent c now, _, _,
            mcpResult s "test" c now,
            saveCurrentOutput_ok_eq s
              { stateFile := .json (encodeState s), outputs := dout } c now
              testAgent hag2,
            mcpSaveOutput_sync s dout "test" c now,
            decodeState_encodeState _, rfl, rfl, rfl, rfl, rfl, rfl, ?_⟩
          simp [mcpResult, managerSaveResult, addHistory, hm, testAgent,
            phaseToString, List.map_append]
        · rw [if_neg h4] at hAg
          exact absurd hAg (by simp)

/-- C1 witness: the amended equivalence applied with agent `planner`,
content "plan", in phase `planning` with an in-sync store. -/
theorem c1_witness :
    ∃ sM dM dW sW,
      saveCurrentOutput statePlanningS
        { stateFile := .json (encodeState statePlanningS), outputs := [] }
        "plan" "T1" = .ok (sM, dM) ∧
      mcpSaveOutput
        { stateFile := .json (encodeState statePlanningS), outputs := [] }
        "planner" "plan" "T1" = some dW ∧
      decodeState (loadState dW.stateFile "T1") = some sW ∧
      sW.currentPhase = sM.currentPhase ∧
      sW.taskDescription = sM.taskDescription ∧
      sW.outputs = sM.outputs ∧
      sW.createdAt = sM.createdAt ∧
      sW.updatedAt = sM.updatedAt ∧
      dW.outputs = dM.outputs ∧
      sW.history.map (fun e => (e.phase, e.action, e.timestamp)) =
        sM.history.map (fun e => (e.phase, e.action, e.timestamp)) :=
  c1_amended statePlanningS [] "planner" plannerAgent "plan" "T1" rfl rfl

end AgentPipeline
